import Mathlib

/-!
Verification of the hightd node agent against its specification.

This file is a shallow embedding, in Lean 4, of the parts of the agent's
source that the specification's claims talk about:

* the sandbox path resolvers of the HTTP file manager
  (sanitizeRelative / resolveServerPath) and of the SFTP daemon (normalize),
* the file-manager request pipeline (token validation, permission gate,
  the read handler, the router's catch-all),
* the unarchive flatten heuristic (deriveArchiveBase, sanitizeArchiveEntry,
  the zip extraction loop),
* the SFTP authentication username split and server lookup,
* the Server instance lifecycle fields (container handle, running flag,
  startedAt timestamp, stdin sink) and the operations mutating them,
* the server registry (create / getServer / delete),
* the control HTTP handlers' token checks and the status route.

Modelling conventions: JavaScript strings are Lean Strings
(ASCII assumed, so JS UTF-16 indices coincide with char indices);
Node's lexical path functions (join / resolve / normalize) are modelled
with posix-style '/' separators and with trailing separators dropped;
thrown exceptions are Except.error; `undefined` fields are Option;
the container runtime and the filesystem are oracles passed as
parameters (outcome values / stat functions), and filesystem or runtime
side effects are recorded as explicit action values.
-/

namespace Hightd

/-! ### JS string primitives (char-list cores) -/

/-- One char is a path separator in the JS sources (the regex class [/\\]). -/
def isSepChar (c : Char) : Bool := c = '/' || c = '\\'

/-- JS String.prototype.split with a single-character separator:
"a_b_".split("_") = ["a","b",""], "".split("_") = [""]. -/
def splitSeg (c : Char) : List Char → List (List Char)
  | [] => [[]]
  | ch :: rest =>
    let r := splitSeg c rest
    if ch = c then [] :: r
    else
      match r with
      | s :: tail => (ch :: s) :: tail
      | [] => [[ch]]

/-- JS Array.prototype.join with a one-char separator. -/
def joinWith (c : Char) : List (List Char) → List Char
  | [] => []
  | [s] => s
  | s :: t => s ++ c :: joinWith c t

/-- Split a string on one separator char (JS split semantics). -/
def jsSplit (c : Char) (s : String) : List String :=
  (splitSeg c s.data).map (fun cs => String.mk cs)

/-- JS split on the character class [/\\] (used by sanitizeRelative). -/
def splitSepsCore : List Char → List (List Char)
  | [] => [[]]
  | ch :: rest =>
    let r := splitSepsCore rest
    if isSepChar ch then [] :: r
    else
      match r with
      | s :: tail => (ch :: s) :: tail
      | [] => [[ch]]

def jsSplitSeps (s : String) : List String :=
  (splitSepsCore s.data).map (fun cs => String.mk cs)

/-- s.startsWith(p) on JS strings. -/
def strStarts (s p : String) : Bool := p.data.isPrefixOf s.data

/-- s.endsWith(p) on JS strings. -/
def strEnds (s p : String) : Bool := p.data.isSuffixOf s.data

/-- s.toLowerCase() (ASCII). -/
def lowerStr (s : String) : String := String.mk (s.data.map Char.toLower)

/-- s.substring(k) — drop the first k chars (JS slice from index k). -/
def strDropChars (s : String) (k : Nat) : String := String.mk (s.data.drop k)

/-- s.slice(0, s.length - k) — drop the last k chars. -/
def strDropRight (s : String) (k : Nat) : String :=
  String.mk (s.data.take (s.data.length - k))

/-- Backslash to forward slash, other chars unchanged. -/
def bsFix (c : Char) : Char := if c = '\\' then '/' else c

/-- s.replace(/\\/g, '/') — every backslash becomes a forward slash. -/
def fixSlash (s : String) : String := String.mk (s.data.map bsFix)

/-- Drop a leading run of [/\\] characters (the regex ^[\\/]+). -/
def dropSeps : List Char → List Char
  | c :: t => if isSepChar c then dropSeps t else c :: t
  | [] => []

/-- p.replace(/^[\\/]+/, ''). -/
def stripLeadingSeps (s : String) : String := String.mk (dropSeps s.data)

/-- s.trim() — whitespace stripped from both ends. -/
def jsTrim (s : String) : String :=
  String.mk (((s.data.dropWhile Char.isWhitespace).reverse.dropWhile
    Char.isWhitespace).reverse)

/-- Truthiness of an optional JS string field: undefined and "" are falsy. -/
def jsTruthy : Option String → Bool
  | none => false
  | some s => s ≠ ""

/-! ### Lexical path model (posix-style, per the modelling conventions) -/

/-- The per-server sandbox base directory, from src (libs/Server). -/
def BASE_SERVER_PATH : String := "E:/servers"

/-- Segment-stack normalization: resolves "." and "..", drops empty
segments; ".." above the start of a relative path is kept, above the
root of an absolute path it is dropped (posix path.normalize, with
trailing separators dropped in this model). -/
def normCore (isAbs : Bool) : List (List Char) → List (List Char) → List (List Char)
  | acc, [] => acc.reverse
  | acc, seg :: rest =>
    if seg = [] || seg = ['.'] then normCore isAbs acc rest
    else if seg = ['.', '.'] then
      match acc with
      | top :: accT =>
        if top = ['.', '.'] then normCore isAbs (seg :: top :: accT) rest
        else normCore isAbs accT rest
      | [] => if isAbs then normCore isAbs [] rest else normCore isAbs [seg] rest
    else normCore isAbs (seg :: acc) rest

/-- path.normalize, lexically. -/
def lexNormalize (s : String) : String :=
  let cs := s.data
  let isAbs := match cs with
    | c :: _ => c = '/'
    | [] => false
  let segs := normCore isAbs [] (splitSeg '/' cs)
  let body := joinWith '/' segs
  let full := if isAbs then '/' :: body else body
  if full = [] then "." else String.mk full

/-- path.join(a, b), lexically. -/
def pathJoin (a b : String) : String := lexNormalize (a ++ "/" ++ b)

/-- path.resolve(base, p) for an already-absolute base, lexically:
an input starting with '/' replaces the base. -/
def pathResolve2 (base p : String) : String :=
  if strStarts p "/" then lexNormalize p else lexNormalize (base ++ "/" ++ p)

/-- p is the root itself or lexically below it (true descendant check,
with a separator after the root — what the spec's invariant 3 asks). -/
def isDescendantOf (root p : String) : Bool := p = root || strStarts p (root ++ "/")

/-- Does the string contain a ".." segment (split on [/\\])? -/
def hasDotDotSeg (s : String) : Bool := (jsSplitSeps s).any (fun seg => seg = "..")

/-! ### File manager sandbox resolvers (src routes filemanager, part_006) -/

/-- sanitizeRelative: empty/"/"/"." map to ""; strip leading separators
and trim; throw on any ".." segment; backslashes to slashes. -/
def sanitizeRelative (p : Option String) : Except String String :=
  match p with
  | none => .ok ""
  | some s =>
    if s = "" || s = "/" || s = "." then .ok ""
    else
      let rel := jsTrim (stripLeadingSeps s)
      if (jsSplitSeps rel).any (fun seg => seg = "..") then
        .error "Caminho não permitido"
      else .ok (fixSlash rel)

/-- resolveServerPath: join the sandbox base with the server id, resolve
the relative path against it, and require the result to start with the
base (JS startsWith — a plain string-prefix check). -/
def resolveServerPath (serverId rel : String) : Except String String :=
  let base := pathJoin BASE_SERVER_PATH serverId
  let abs := pathResolve2 base rel
  if strStarts abs (lexNormalize base) then .ok abs
  else .error "Fora do diretório do servidor"

/-! ### SFTP path resolver (src/libs/SFTP.ts, normalize) -/

/-- The regex /^(?:[a-zA-Z]:\\|\\\\|[a-zA-Z]:\/)/ of SFTP's isOsAbsolute. -/
def isOsAbsolute (s : String) : Bool :=
  match s.data with
  | a :: b :: c :: _ => (a.isAlpha && b = ':' && isSepChar c) || (a = '\\' && b = '\\')
  | [a, b] => a = '\\' && b = '\\'
  | _ => false

/-- The SFTP normalize: maps a client path to a host path under rootDir,
throwing 'Path fora do sandbox' when the normalized result does not
start (string-prefix) with rootDir. -/
def sftpNormalize (rootDir p : String) : Except String String :=
  if p = "" || p = "." || p = "/" then .ok rootDir
  else if p = rootDir || p = rootDir ++ "/" || p = rootDir ++ "/." then .ok rootDir
  else if strStarts p "/" then
    let relPart := stripLeadingSeps p
    if relPart = "" then .ok rootDir
    else
      let rel := pathJoin rootDir relPart
      if strStarts rel rootDir then .ok rel else .error "Path fora do sandbox"
  else if isOsAbsolute p then
    let abs := lexNormalize p
    if strStarts abs rootDir then .ok abs else .error "Path fora do sandbox"
  else
    let rel := pathJoin rootDir (stripLeadingSeps p)
    if strStarts rel rootDir then .ok rel else .error "Path fora do sandbox"

/-! ### Server registry (src part_003: Server.servers, create, getServer, delete) -/

/-- A registry entry. The tag models JS object identity (each
`new Server(id)` is a fresh reference); the id is the server id string. -/
structure Inst where
  tag : Nat
  id : String
deriving DecidableEq, Repr

/-- Server.getServer: Array.prototype.find — the first entry whose id
matches, or null. -/
def getServerReg (reg : List Inst) (sid : String) : Option Inst :=
  reg.find? (fun s => s.id = sid)

/-- Server.create: push a fresh instance — no uniqueness check.
The fresh tag is the current length (any value distinct from the
existing tags of a create-built registry). -/
def createReg (reg : List Inst) (sid : String) : List Inst :=
  reg ++ [⟨reg.length, sid⟩]

/-- The splice(indexOf(this), 1) of Server.delete: remove the first
occurrence of exactly this instance (reference equality). -/
def removeFirstRef : List Inst → Inst → List Inst
  | [], _ => []
  | x :: xs, i => if x = i then xs else x :: removeFirstRef xs i

/-- Runtime / filesystem side effects recorded by the model. -/
inductive RtAction
  | killContainer (h : Nat)
  | removeContainer (h : Nat)
  | removeDir (path : String)
deriving DecidableEq, Repr

/-- Server.delete, registry view: best-effort kill and container removal,
recursive removal of the sandbox directory, then deregistration. -/
def deleteServerReg (reg : List Inst) (i : Inst) (container : Option Nat) :
    List Inst × List RtAction :=
  let acts :=
    (match container with
     | some h => [RtAction.killContainer h, RtAction.removeContainer h]
     | none => []) ++ [RtAction.removeDir (BASE_SERVER_PATH ++ "/" ++ i.id)]
  (removeFirstRef reg i, acts)

/-! ### Server instance lifecycle fields (src part_003) -/

/-- The lifecycle fields of one Server instance: the container handle,
the running flag, the startedAt epoch value, and whether a stdin sink
(attach stream) is present. -/
structure SrvState where
  container : Option Nat
  running : Bool
  startedAt : Option Nat
  stdinOpen : Bool
deriving DecidableEq, Repr

/-- The reset applied by Server.start's catch block and by delete. -/
def resetSrv : SrvState := ⟨none, false, none, false⟩

/-- Outcome of the runtime interactions inside one start(data) call:
where the call failed (carrying the thrown message), or, on reaching
attach, the created handle and whether the 15×200ms poll observed
'running'. -/
inductive StartOutcome
  | pullFail (e : String)
  | createFail (e : String)
  | startFail (h : Nat) (e : String)
  | attachFail (h : Nat) (polled : Bool) (e : String)
  | finished (h : Nat) (polled : Bool)
deriving DecidableEq, Repr

/-- Server.start: force-remove any pre-existing container, clear
startedAt/running, then pull → create → start → poll → attach; the
catch block force-removes the created container, resets every field
and rethrows the original error. -/
def startStep (s : SrvState) (o : StartOutcome) (now : Nat) :
    SrvState × List RtAction × Except String Unit :=
  let pre : List RtAction :=
    match s.container with
    | some c => [RtAction.removeContainer c]
    | none => []
  match o with
  | .pullFail e => (resetSrv, pre, .error e)
  | .createFail e => (resetSrv, pre, .error e)
  | .startFail h e => (resetSrv, pre ++ [RtAction.removeContainer h], .error e)
  | .attachFail h _ e => (resetSrv, pre ++ [RtAction.removeContainer h], .error e)
  | .finished h polled =>
      (⟨some h, polled, if polled then some now else none, true⟩, pre, .ok ())

/-- Outcome of container.inspect inside getStatus: a thrown error, or a
status string together with the effective StartedAt value when that
field is present (parse failure already folded to Date.now()). -/
inductive InspectOutcome
  | failure
  | ok (status : String) (startedAtVal : Option Nat)
deriving DecidableEq, Repr

/-- Server.getStatus: no handle → stopped (running cleared, startedAt
left as is); inspect failure → stopped, handle dropped, startedAt left
as is; status running → synchronize running and (only if null) startedAt;
any other status → running cleared, startedAt left as is. -/
def getStatusStep (s : SrvState) (o : InspectOutcome) : SrvState × String :=
  match s.container with
  | none => ({ s with running := false }, "stopped")
  | some _ =>
    match o with
    | .failure => ({ s with running := false, container := none }, "stopped")
    | .ok st v =>
      if st = "running" then
        if s.running then (s, "running")
        else
          let s1 := { s with running := true }
          let s2 :=
            if s.startedAt = none then
              match v with
              | some d => { s1 with startedAt := some d }
              | none => s1
            else s1
          (s2, "running")
      else ({ s with running := false }, "stopped")

/-- The container.wait() continuation registered by _attachAfterStart:
on container exit it clears running, startedAt and the stdin sink (the
handle itself is kept). -/
def waitExitStep (s : SrvState) : SrvState :=
  { s with running := false, startedAt := none, stdinOpen := false }

/-- _reattach (also reached from sendCommand / stop when the sink is
absent): on success installs a stdin sink; fields otherwise untouched. -/
def reattachStep (s : SrvState) (ok : Bool) : SrvState :=
  match s.container with
  | none => s
  | some _ => if s.stdinOpen then s else { s with stdinOpen := ok }

/-- One public operation on a Server instance, with its runtime
outcome parameters. -/
inductive SrvOp
  | startOp (o : StartOutcome) (now : Nat)
  | statusOp (o : InspectOutcome)
  | waitExit
  | deleteOp
  | killOp
  | stopOp (reattachOk : Bool)
  | commandOp (reattachOk : Bool)
deriving DecidableEq, Repr

/-- Field effect of each public operation (kill touches no field; stop
and sendCommand touch only the stdin sink via reattach; delete resets
everything). -/
def applyOp (s : SrvState) (op : SrvOp) : SrvState :=
  match op with
  | .startOp o now => (startStep s o now).1
  | .statusOp o => (getStatusStep s o).1
  | .waitExit => waitExitStep s
  | .deleteOp => resetSrv
  | .killOp => s
  | .stopOp r => reattachStep s r
  | .commandOp r => reattachStep s r

/-- Well-formedness of a runtime outcome: a Docker inspect that reports
status 'running' carries a StartedAt timestamp. -/
def opWF : SrvOp → Bool
  | .statusOp (.ok st v) => if st = "running" then v.isSome else true
  | _ => true

/-! ### Control HTTP handlers: token checks and the status route -/

/-- Body fields shared by the file-manager requests. -/
structure FMBody where
  token : Option String
  userUuid : Option String
  serverId : Option String
  path : Option String
deriving DecidableEq, Repr

/-- validateAuth of the file manager: 'token é obrigatório' when the
token field is falsy, 'token inválido' on mismatch, then the serverId
and userUuid presence checks; none = pass. -/
def validateAuth (cfgToken : String) (b : FMBody) : Option String :=
  if !(jsTruthy b.token) then some "token é obrigatório"
  else if b.token ≠ some cfgToken then some "token inválido"
  else if !(jsTruthy b.serverId) then some "serverId é obrigatório"
  else if !(jsTruthy b.userUuid) then some "userUuid é obrigatório"
  else none

/-- interpretFileManager's auth gate: a validateAuth failure is sent
with HTTP status 400 (whatever the message). -/
def fmAuthGate (cfgToken : String) (b : FMBody) : Option Nat :=
  match validateAuth cfgToken b with
  | some _ => some 400
  | none => none

/-- Result of fs.stat in the model. -/
inductive StatRes
  | missing
  | dir
  | file (size : Nat)
deriving DecidableEq, Repr

/-- handleRead: 400 without a path, then sanitize + resolve (their
exceptions propagate out of the handler), then 404 / 400 (directory) /
413 (> 2 MiB) / 200. -/
def handleReadM (sid : String) (statOf : String → StatRes) (b : FMBody) :
    Except String Nat :=
  if !(jsTruthy b.path) then .ok 400
  else
    match sanitizeRelative b.path with
    | .error e => .error e
    | .ok rel =>
      match resolveServerPath sid rel with
      | .error e => .error e
      | .ok abs =>
        match statOf abs with
        | .missing => .ok 404
        | .dir => .ok 400
        | .file sz => if sz > 2 * 1024 * 1024 then .ok 413 else .ok 200

/-- interpretFileManager for the 'read' action: validateAuth → 400;
ensurePermission's exceptions ('Servidor não encontrado' / 'Sem
permissão') are caught and sent as 403; then the handler, whose own
exceptions keep propagating. -/
def interpretFMRead (cfgToken : String) (reg : List Inst)
    (permOf : String → String → Bool) (statOf : String → StatRes)
    (b : FMBody) : Except String Nat :=
  match fmAuthGate cfgToken b with
  | some code => .ok code
  | none =>
    match getServerReg reg (b.serverId.getD "") with
    | none => .ok 403
    | some srv =>
      if !(permOf (b.userUuid.getD "") srv.id) then .ok 403
      else handleReadM (b.serverId.getD "") statOf b

/-- handleRequest's catch-all: an exception escaping a route handler is
answered with HTTP status 500 ('Erro interno do servidor'). -/
def fileManagerReadHttp (cfgToken : String) (reg : List Inst)
    (permOf : String → String → Bool) (statOf : String → StatRes)
    (b : FMBody) : Nat :=
  match interpretFMRead cfgToken reg permOf statOf b with
  | .ok code => code
  | .error _ => 500

/-- VerifyStatus (the /api/v1/status route): 401 whenever body.token
differs from config.token — for an absent token as well. -/
def verifyStatusRoute (cfgToken : String) (tok : Option String) : Nat :=
  if tok ≠ some cfgToken then 401 else 200

/-- Body fields shared by the server lifecycle routes. -/
structure AuthBody where
  token : Option String
  serverId : Option String
  userUuid : Option String
deriving DecidableEq, Repr

/-- CreateServer's response status (the create itself is wrapped in a
try/catch that swallows errors, so the tail is always 'success'):
missing token → 400, mismatch → 403, missing serverId/userUuid → 400,
non-admin → 403, else 200. DeleteServer, GetServerStatus,
SendActionServer and GetServerUsage share the same token prefix. -/
def createServerRoute (cfgToken : String) (b : AuthBody) (isAdmin : Bool) : Nat :=
  if !(jsTruthy b.token) then 400
  else if b.token ≠ some cfgToken then 403
  else if !(jsTruthy b.serverId) then 400
  else if !(jsTruthy b.userUuid) then 400
  else if !isAdmin then 403
  else 200

/-- A JSON value in a response body: a plain string, or a still-pending
Promise that was serialized without being awaited. -/
inductive JsonVal
  | s (v : String)
  | promisePending (label : String)
deriving DecidableEq, Repr

/-- An HTTP response with its JSON body fields. -/
structure HttpResp where
  status : Nat
  body : List (String × JsonVal)
deriving DecidableEq, Repr

/-- GetServerStatus (the /api/v1/servers/status route). The success
branch sends {status:'success', serverStatus: server.getStatus()} —
getStatus() is an async method and its result is NOT awaited, so the
serverStatus field holds a pending Promise, not 'running'/'stopped'. -/
def getServerStatusRoute (cfgToken : String) (b : AuthBody)
    (reg : List Inst) (permOf : String → String → Bool) : HttpResp :=
  if !(jsTruthy b.token) then ⟨400, [("error", .s "Token is required")]⟩
  else if b.token ≠ some cfgToken then ⟨403, [("error", .s "Invalid token")]⟩
  else if !(jsTruthy b.serverId) then ⟨400, [("error", .s "serverId is required")]⟩
  else if !(jsTruthy b.userUuid) then ⟨400, [("error", .s "userUuid is required")]⟩
  else
    match getServerReg reg (b.serverId.getD "") with
    | none => ⟨404, [("error", .s "Server not found")]⟩
    | some srv =>
      if !(permOf (b.userUuid.getD "") srv.id) then
        ⟨403, [("error", .s "No permission")]⟩
      else
        ⟨200, [("status", .s "success"),
               ("serverStatus", .promisePending "getStatus")]⟩

/-! ### SFTP authentication (src/libs/SFTP.ts, client.on authentication) -/

/-- The username parsing of the SFTP authentication handler:
parts = username.split('_'); fewer than 2 parts → reject;
user = parts.slice(0,-1).join('_'); serverId = parts.pop() || 'a'
(an empty right side falls back to the literal 'a'). -/
def parseSftpUser (raw : String) : Option (String × String) :=
  let parts := splitSeg '_' raw.data
  if parts.length < 2 then none
  else
    let base := String.mk (joinWith '_' parts.dropLast)
    let sid := parts.getLastD []
    some (base, if sid = [] then "a" else String.mk sid)

/-- Server lookup of the SFTP handler: exact id first
(Server.getServer), then the filter over id.startsWith(serverId) —
exactly one match is accepted, zero or several are rejected. -/
def resolveServerLookup (reg : List Inst) (sid : String) : Option Inst :=
  match getServerReg reg sid with
  | some s => some s
  | none =>
    match reg.filter (fun s => strStarts s.id sid) with
    | [m] => some m
    | _ => none

/-- The full username → (user, server) resolution of the handler. -/
def sftpAuthResolve (reg : List Inst) (raw : String) : Option (String × Inst) :=
  (parseSftpUser raw).bind fun pr =>
    (resolveServerLookup reg pr.2).map fun s => (pr.1, s)

/-- Split a char list at the LAST occurrence of c: left of it / right
of it; none when c does not occur. -/
def lastSplitChar (c : Char) : List Char → Option (List Char × List Char)
  | [] => none
  | x :: xs =>
    match lastSplitChar c xs with
    | some (l, r) => some (x :: l, r)
    | none => if x = c then some ([], xs) else none

/-- The claim's reading of the username format: split on the last
underscore, the right side is the server id verbatim. -/
def claimParse (raw : String) : Option (String × String) :=
  match lastSplitChar '_' raw.data with
  | none => none
  | some (l, r) => some (String.mk l, String.mk r)

/-- The claim's reading of the whole resolution. -/
def claimAuthResolve (reg : List Inst) (raw : String) : Option (String × Inst) :=
  (claimParse raw).bind fun pr =>
    (resolveServerLookup reg pr.2).map fun s => (pr.1, s)

/-- The amended reading: as the claim, but an empty right side is
replaced by the literal 'a'. -/
def amendedParse (raw : String) : Option (String × String) :=
  match lastSplitChar '_' raw.data with
  | none => none
  | some (l, r) => some (String.mk l, if r = [] then "a" else String.mk r)

/-- The amended resolution. -/
def amendedAuthResolve (reg : List Inst) (raw : String) : Option (String × Inst) :=
  (amendedParse raw).bind fun pr =>
    (resolveServerLookup reg pr.2).map fun s => (pr.1, s)

/-! ### Unarchive: deriveArchiveBase, sanitizeArchiveEntry, flatten (part_006) -/

/-- The regex /^([A-Za-z]:)?[\\/]+/ of sanitizeArchiveEntry: an optional
drive letter, then at least one separator, stripped from the front;
no separator run → unchanged. -/
def stripDriveSlashes (cs : List Char) : List Char :=
  match cs with
  | a :: b :: c :: t =>
    if a.isAlpha && b = ':' && isSepChar c then dropSeps (c :: t)
    else if isSepChar a then dropSeps cs
    else cs
  | a :: t => if isSepChar a then dropSeps (a :: t) else a :: t
  | [] => []

/-- sanitizeArchiveEntry: strip drive/leading separators, backslashes to
slashes, drop empty and '.' segments, throw on '..', rejoin with '/'. -/
def sanitizeArchiveEntry (p : String) : Except String String :=
  let clean := (stripDriveSlashes p.data).map bsFix
  let parts := (splitSeg '/' clean).filter (fun seg => seg ≠ [] && seg ≠ ['.'])
  if parts.any (fun seg => seg = ['.', '.']) then
    .error "Entrada de arquivo inválida em archive"
  else .ok (String.mk (joinWith '/' parts))

/-- The final name.replace(/\.[^.]+$/, '') fallback: drop the last
dot-extension when the last dot is followed by at least one char. -/
def stripLastExt (name : String) : String :=
  match lastSplitChar '.' name.data with
  | some (l, r) => if r = [] then name else String.mk l
  | none => name

/-- deriveArchiveBase: strip .tar.gz / .tgz / .zip / .rar / .tar
(case-insensitively), else the generic last extension. -/
def deriveArchiveBase (name : String) : String :=
  let lower := lowerStr name
  if strEnds lower ".tar.gz" then strDropRight name 7
  else if strEnds lower ".tgz" then strDropRight name 4
  else if strEnds lower ".zip" || strEnds lower ".rar" || strEnds lower ".tar" then
    strDropRight name 4
  else stripLastExt name

/-- path.basename, lexically: the last non-empty '/'-segment. -/
def basenameStr (s : String) : String :=
  String.mk (((splitSeg '/' s.data).filter (fun seg => seg ≠ [])).getLastD [])

/-- The first top-level component: s.split('/')[0]. -/
def firstTopOf (s : String) : String := String.mk ((splitSeg '/' s.data).headD [])

/-- The flatten decision of handleUnarchive (run only when the caller
supplied a destination): normalize backslashes, drop empty names, take
the first entry's top component, require every entry to be it or lie
under it, and require it to equal the derived base name. Returns the
flag together with the root candidate. -/
def flattenCheck (base : String) (rawNames : List String) : Bool × String :=
  match (rawNames.map fixSlash).filter (fun n => n ≠ "") with
  | [] => (false, "")
  | n0 :: rest =>
    if firstTopOf n0 ≠ "" &&
        (n0 :: rest).all (fun n => n = firstTopOf n0 ||
          strStarts n (firstTopOf n0 ++ "/")) &&
        firstTopOf n0 = base
    then (true, firstTopOf n0) else (false, "")

/-- One zip entry through the extraction loop: sanitize (errors are
reported per entry, not extracted), skip empty; under flatten skip the
root itself and strip the 'root/' prefix; guard that the joined target
still starts with the destination. Returns the extracted name relative
to the destination, or none when nothing is written. -/
def entryFinal (destAbs : String) (flat : Bool) (root : String) (raw : String) :
    Option String :=
  match sanitizeArchiveEntry raw with
  | .error _ => none
  | .ok n0 =>
    if n0 = "" then none
    else
      let n1 :=
        if flat then
          if n0 = root then ""
          else if strStarts n0 (root ++ "/") then strDropChars n0 (root.length + 1)
          else n0
        else n0
      if n1 = "" then none
      else
        let finalAbs := pathJoin destAbs n1
        if strStarts finalAbs destAbs then some n1 else none

/-- The response-relevant outcome of an unarchive: the reported
flattened flag, the extracted names relative to the destination, and
the sandbox-relative extracted paths. -/
structure UnarchOut where
  flattened : Bool
  names : List String
  outPaths : List String
deriving DecidableEq, Repr

/-- handleUnarchive, modelled for the .zip branch (stat and mkdir are
filesystem environment and are elided; entries are the archive's entry
names): sanitize and resolve the archive path, check the format, derive
the base name, compute the destination (the supplied one when truthy,
else the base name), resolve it, decide flatten (only with a
caller-supplied destination), and run every entry through the
extraction loop. -/
def unarchiveZipModel (serverId : String) (destination : Option String)
    (archivePath : String) (rawEntries : List String) : Except String UnarchOut :=
  match sanitizeRelative (some archivePath) with
  | .error e => .error e
  | .ok relArchive =>
    match resolveServerPath serverId relArchive with
    | .error e => .error e
    | .ok _absArchive =>
      if !(strEnds (lowerStr relArchive) ".zip") then .error "Formato não suportado"
      else
        let base := deriveArchiveBase (basenameStr relArchive)
        let userDest := jsTruthy destination
        let destSrc : Option String := if userDest then destination else some base
        match sanitizeRelative destSrc with
        | .error e => .error e
        | .ok destRel =>
          match resolveServerPath serverId destRel with
          | .error e => .error e
          | .ok destAbs =>
            let fl := if userDest then flattenCheck base rawEntries else (false, "")
            let names := rawEntries.filterMap (entryFinal destAbs fl.1 fl.2)
            .ok ⟨fl.1, names,
                 names.map (fun n => if destRel = "" then n else destRel ++ "/" ++ n)⟩

/-- A plain directory-name segment: non-empty, not '.' or '..', and
free of '/', '\' and ':' (so neither separator normalization, nor the
dot-segment filter, nor the drive strip can interfere with it). -/
def cleanSegB (T : String) : Bool :=
  T ≠ "" && T ≠ "." && T ≠ ".." &&
    T.data.all (fun c => c ≠ '/' && c ≠ '\\' && c ≠ ':')

/-- The claim's flatten condition for a top directory T: at least one
non-empty (slash-normalized) entry name, and every one of them is T or
lies under T/. -/
def flattenCondB (T : String) (raws : List String) : Bool :=
  let names := (raws.map fixSlash).filter (fun n => n ≠ "")
  names ≠ [] && names.all (fun n => n = T || strStarts n (T ++ "/"))

/-- The '/'-components of a path string. -/
def pathComponents (s : String) : List String :=
  (splitSeg '/' s.data).map (fun cs => String.mk cs)

/-! ## Claim theorems -/

/-- C1: the claim says every path produced by the sandbox resolvers is a
descendant of BASE_SERVER_PATH/serverId and any input with a '..'
segment fails with PathEscape. The SFTP normalize violates both: for
server "abc", the input "/../abcd/x" (which contains a '..' segment)
resolves successfully to E:/servers/abcd/x — a sibling sandbox that
merely extends the id as a string — because the confinement check is a
bare string-prefix test against the root without a trailing separator.
This theorem evaluates the embedded normalize at that failing input. -/
theorem c1_sftp_escape :
    sftpNormalize (pathJoin BASE_SERVER_PATH "abc") "/../abcd/x"
      = .ok "E:/servers/abcd/x" ∧
    isDescendantOf (pathJoin BASE_SERVER_PATH "abc") "E:/servers/abcd/x" = false ∧
    hasDotDotSeg "/../abcd/x" = true := by
  refine ⟨rfl, by decide, by decide⟩

/-- C2 counterexample: a file-manager read with path
"../../../etc/passwd" (valid token, permission granted) is answered
with HTTP status 500, not 403 — the PathEscape exception thrown by
sanitizeRelative propagates uncaught to the router's catch-all. -/
theorem c2_counterexample :
    fileManagerReadHttp "tok" [⟨0, "s1"⟩] (fun _ _ => true) (fun _ => .missing)
      ⟨some "tok", some "u", some "s1", some "../../../etc/passwd"⟩ = 500 ∧
    (500 : Nat) ≠ 403 := by
  refine ⟨by decide, by decide⟩

/-- C2 amended: for every file-manager read request with a valid
non-empty token, an existing server, permission granted, and a path
input that sanitizeRelative rejects (a '..' segment), the HTTP response
status is 500 (the router's catch-all), not 403. -/
theorem c2_pathescape_is_500 (cfg uid sid p m : String) (reg : List Inst)
    (permOf : String → String → Bool) (statOf : String → StatRes) (srv : Inst)
    (hcfg : cfg ≠ "") (huid : uid ≠ "") (hsid : sid ≠ "")
    (hsrv : getServerReg reg sid = some srv)
    (hperm : permOf uid srv.id = true)
    (hpath : sanitizeRelative (some p) = .error m) :
    fileManagerReadHttp cfg reg permOf statOf ⟨some cfg, some uid, some sid, some p⟩
      = 500 := by
  have hp : p ≠ "" := by
    intro h
    rw [h] at hpath
    simp [sanitizeRelative] at hpath
  simp [fileManagerReadHttp, interpretFMRead, fmAuthGate, validateAuth, jsTruthy,
    handleReadM, hcfg, huid, hsid, hp, hsrv, hperm, hpath]

/-- C2 witness: the amended theorem applied at the counterexample's
concrete request. -/
theorem c2_witness :
    fileManagerReadHttp "tok" [⟨0, "s1"⟩] (fun _ _ => true) (fun _ => .missing)
      ⟨some "tok", some "u", some "s1", some "../../../etc/passwd"⟩ = 500 :=
  c2_pathescape_is_500 "tok" "u" "s1" "../../../etc/passwd"
    "Caminho não permitido" [⟨0, "s1"⟩] (fun _ _ => true) (fun _ => .missing)
    ⟨0, "s1"⟩ (by decide) (by decide) (by decide) (by decide) (by decide) rfl

/-- C7: the /api/v1/servers/status success response carries
server.getStatus() without awaiting it — the serverStatus field is a
pending Promise, not the resolved "running"/"stopped" string. Evaluated
at a concrete authorized request. -/
theorem c7_status_not_awaited :
    (getServerStatusRoute "t" ⟨some "t", some "s1", some "u"⟩ [⟨0, "s1"⟩]
        (fun _ _ => true)).body
      = [("status", .s "success"), ("serverStatus", .promisePending "getStatus")] ∧
    ∀ v : String, JsonVal.promisePending "getStatus" ≠ JsonVal.s v := by
  refine ⟨by decide, fun v h => by cases h⟩

/-- C8 counterexample: a request to /api/v1/status with the token
absent is answered 401, not 400 as the claim states for every control
endpoint. -/
theorem c8_counterexample :
    verifyStatusRoute "tok" none = 401 ∧ (401 : Nat) ≠ 400 := by
  refine ⟨by decide, by decide⟩

/-- C8 amended: the lifecycle routes (create/delete/status/action/usage)
answer 400 for a missing token and 403 for a mismatched one, but
/api/v1/status answers 401 in both cases, and the file-manager routes
answer 400 in both cases. -/
theorem c8_token_codes (cfg : String) (tok sid uid pth : Option String)
    (adm : Bool) :
    (tok = none → verifyStatusRoute cfg tok = 401) ∧
    (tok ≠ some cfg → verifyStatusRoute cfg tok = 401) ∧
    (jsTruthy tok = false → createServerRoute cfg ⟨tok, sid, uid⟩ adm = 400) ∧
    (jsTruthy tok = true → tok ≠ some cfg →
      createServerRoute cfg ⟨tok, sid, uid⟩ adm = 403) ∧
    (jsTruthy tok = false ∨ tok ≠ some cfg →
      fmAuthGate cfg ⟨tok, uid, sid, pth⟩ = some 400) := by
  refine ⟨?_, ?_, ?_, ?_, ?_⟩
  · intro h
    subst h
    simp [verifyStatusRoute]
  · intro h
    simp [verifyStatusRoute, h]
  · intro h
    simp [createServerRoute, h]
  · intro h1 h2
    simp [createServerRoute, h1, h2]
  · intro h
    rcases h with h | h
    · simp [fmAuthGate, validateAuth, h]
    · cases htr : jsTruthy tok with
      | false => simp [fmAuthGate, validateAuth, htr]
      | true => simp [fmAuthGate, validateAuth, htr, h]

/-- C8 witness: the amended token-code theorem at concrete inputs, each
hypothesis discharged. -/
theorem c8_witness :
    verifyStatusRoute "t" none = 401 ∧
    verifyStatusRoute "t" (some "x") = 401 ∧
    createServerRoute "t" ⟨none, some "s", some "u"⟩ true = 400 ∧
    createServerRoute "t" ⟨some "x", some "s", some "u"⟩ true = 403 ∧
    fmAuthGate "t" ⟨some "x", some "u", some "s", none⟩ = some 400 := by
  refine ⟨(c8_token_codes "t" none (some "s") (some "u") none true).1 rfl,
    (c8_token_codes "t" (some "x") (some "s") (some "u") none true).2.1 (by decide),
    (c8_token_codes "t" none (some "s") (some "u") none true).2.2.1 (by decide),
    (c8_token_codes "t" (some "x") (some "s") (some "u") none true).2.2.2.1
      (by decide) (by decide),
    (c8_token_codes "t" (some "x") (some "u") (some "s") none true).2.2.2.2
      (Or.inr (by decide))⟩

/-- C3 counterexample: start a fresh instance successfully (running
becomes true, startedAt is set), then let getStatus observe the runtime
status "exited" — the code clears running but leaves startedAt
non-null, so "startedAtEpochMs is non-null iff running" fails after
this public operation. -/
theorem c3_counterexample :
    (applyOp (applyOp resetSrv (SrvOp.startOp (.finished 7 true) 5))
        (SrvOp.statusOp (.ok "exited" (some 99)))).running = false ∧
    (applyOp (applyOp resetSrv (SrvOp.startOp (.finished 7 true) 5))
        (SrvOp.statusOp (.ok "exited" (some 99)))).startedAt = some 5 := by
  refine ⟨by decide, by decide⟩

/-- C3 amended: after every public operation, running = true implies
startedAtEpochMs is non-null (given that an inspect reporting 'running'
carries a StartedAt value); startedAt is set at the first transition
into running and cleared by the wait continuation, the start rollback
and delete — but getStatus leaves it unchanged when it observes the
runtime is not running, so it can stay non-null while running is false. -/
theorem c3_running_implies_startedAt (s : SrvState) (op : SrvOp)
    (hwf : opWF op = true)
    (hinv : s.running = true → s.startedAt ≠ none) :
    (applyOp s op).running = true → (applyOp s op).startedAt ≠ none := by
  intro hrun
  cases op with
  | startOp o now =>
    cases o with
    | pullFail e => simp [applyOp, startStep, resetSrv] at hrun
    | createFail e => simp [applyOp, startStep, resetSrv] at hrun
    | startFail h e => simp [applyOp, startStep, resetSrv] at hrun
    | attachFail h p e => simp [applyOp, startStep, resetSrv] at hrun
    | finished h polled =>
      simp only [applyOp, startStep] at hrun ⊢
      simp_all
  | statusOp o =>
    cases hc : s.container with
    | none =>
      simp [applyOp, getStatusStep, hc] at hrun
    | some h =>
      cases o with
      | failure => simp [applyOp, getStatusStep, hc] at hrun
      | ok st v =>
        simp only [applyOp, getStatusStep, hc] at hrun ⊢
        by_cases hst : st = "running"
        · simp only [hst, if_pos rfl] at hrun ⊢
          by_cases hr : s.running
          · simp only [hr, if_pos rfl] at hrun ⊢
            exact hinv hr
          · simp only [hr, Bool.false_eq_true, if_neg, if_false] at hrun ⊢
            by_cases hsa : s.startedAt = none
            · have hv : v.isSome := by
                simpa [opWF, hst] using hwf
              cases v with
              | none => simp at hv
              | some d => simp [hsa]
            · simp [hsa]
        · simp [hst] at hrun
  | waitExit => simp [applyOp, waitExitStep] at hrun
  | deleteOp => simp [applyOp, resetSrv] at hrun
  | killOp =>
    simp only [applyOp] at hrun ⊢
    exact hinv hrun
  | stopOp r =>
    simp only [applyOp, reattachStep] at hrun ⊢
    cases hc : s.container with
    | none => simp only [hc] at hrun ⊢; exact hinv hrun
    | some h =>
      simp only [hc] at hrun ⊢
      by_cases hs : s.stdinOpen
      · simp only [hs, if_pos rfl] at hrun ⊢; exact hinv hrun
      · simp only [hs, Bool.false_eq_true, if_neg, if_false] at hrun ⊢
        exact hinv hrun
  | commandOp r =>
    simp only [applyOp, reattachStep] at hrun ⊢
    cases hc : s.container with
    | none => simp only [hc] at hrun ⊢; exact hinv hrun
    | some h =>
      simp only [hc] at hrun ⊢
      by_cases hs : s.stdinOpen
      · simp only [hs, if_pos rfl] at hrun ⊢; exact hinv hrun
      · simp only [hs, Bool.false_eq_true, if_neg, if_false] at hrun ⊢
        exact hinv hrun

/-- C3 witness: the amended invariant applied to a concrete running
instance observed running by getStatus. -/
theorem c3_witness :
    opWF (SrvOp.statusOp (.ok "running" (some 7))) = true ∧
    ((⟨some 1, true, some 5, true⟩ : SrvState).running = true →
      (⟨some 1, true, some 5, true⟩ : SrvState).startedAt ≠ none) ∧
    ((applyOp ⟨some 1, true, some 5, true⟩
        (SrvOp.statusOp (.ok "running" (some 7)))).running = true →
      (applyOp ⟨some 1, true, some 5, true⟩
        (SrvOp.statusOp (.ok "running" (some 7)))).startedAt ≠ none) := by
  refine ⟨by decide, by decide,
    c3_running_implies_startedAt ⟨some 1, true, some 5, true⟩
      (SrvOp.statusOp (.ok "running" (some 7))) (by decide) (by decide)⟩

/-- C4: whenever start(startData) fails at pull, create or container
start, the original error is propagated, every instance field is reset
(container null, running false, startedAt null, stdin sink null), and —
when the failure happened after the container was created — a forced
removal of that container is among the performed actions. -/
theorem c4_start_rollback (s : SrvState) (now : Nat) (e : String) (h : Nat) :
    (startStep s (.pullFail e) now).1 = resetSrv ∧
    (startStep s (.pullFail e) now).2.2 = .error e ∧
    (startStep s (.createFail e) now).1 = resetSrv ∧
    (startStep s (.createFail e) now).2.2 = .error e ∧
    (startStep s (.startFail h e) now).1 = resetSrv ∧
    (startStep s (.startFail h e) now).2.2 = .error e ∧
    RtAction.removeContainer h ∈ (startStep s (.startFail h e) now).2.1 := by
  refine ⟨rfl, rfl, rfl, rfl, rfl, rfl, ?_⟩
  simp [startStep]

/-- find? returns the head of the filtered list (first match wins). -/
theorem find?_eq_head_of_filter {α : Type} (p : α → Bool) (l : List α) :
    l.find? p = (l.filter p).head? := by
  induction l with
  | nil => rfl
  | cons x xs ih =>
    by_cases h : p x
    · rw [List.find?_cons_of_pos _ h, List.filter_cons_of_pos h]
      rfl
    · rw [List.find?_cons_of_neg _ h, List.filter_cons_of_neg h]
      exact ih

/-- C10: registry create appends a fresh instance with no uniqueness
check: after two create(id) calls with the same id the registry holds
two distinct instances carrying that id, and getServer(id) is the head
of the id-filtered registry — the earliest-registered match. -/
theorem c10_create_no_uniqueness (reg : List Inst) (sid : String) :
    ((createReg (createReg reg sid) sid).filter (fun s => s.id = sid)).length
      = (reg.filter (fun s => s.id = sid)).length + 2 ∧
    (∃ a b : Inst, a ∈ createReg (createReg reg sid) sid ∧
      b ∈ createReg (createReg reg sid) sid ∧ a ≠ b ∧ a.id = sid ∧ b.id = sid) ∧
    (∀ r : List Inst,
      getServerReg r sid = ((r.filter (fun s => s.id = sid)).head?)) := by
  refine ⟨?_, ?_, ?_⟩
  · unfold createReg
    rw [List.filter_append, List.filter_append, List.length_append, List.length_append]
    simp
  · refine ⟨⟨reg.length, sid⟩, ⟨(createReg reg sid).length, sid⟩, ?_, ?_, ?_, rfl, rfl⟩
    · simp [createReg]
    · simp [createReg]
    · simp [createReg]
  · intro r
    exact find?_eq_head_of_filter _ r

/-- C9 counterexample: with two registered instances sharing the id "s"
(possible because create performs no uniqueness check), deleting the
first one leaves getServer("s") returning the surviving duplicate, not
null. -/
theorem c9_counterexample :
    getServerReg (deleteServerReg [⟨0, "s"⟩, ⟨1, "s"⟩] ⟨0, "s"⟩ none).1 "s"
      = some ⟨1, "s"⟩ ∧
    (some (⟨1, "s"⟩ : Inst) : Option Inst) ≠ none := by
  refine ⟨by decide, by decide⟩

/-- C9 amended: after delete(i) the removal of the sandbox directory
BASE_SERVER_PATH/i.id is issued (best-effort), and — provided i is the
only registered instance carrying its id — getServer(i.id) returns
null. -/
theorem c9_delete_deregisters (reg : List Inst) (i : Inst) (c : Option Nat)
    (hmem : i ∈ reg)
    (huniq : (reg.filter (fun j => j.id = i.id)).length ≤ 1) :
    getServerReg (deleteServerReg reg i c).1 i.id = none ∧
    RtAction.removeDir (BASE_SERVER_PATH ++ "/" ++ i.id)
      ∈ (deleteServerReg reg i c).2 := by
  refine ⟨?_, ?_⟩
  · show getServerReg (removeFirstRef reg i) i.id = none
    induction reg with
    | nil => cases hmem
    | cons x xs ih =>
      by_cases hx : x = i
      · subst hx
        have hcons : (x :: xs).filter (fun j => j.id = x.id)
            = x :: xs.filter (fun j => j.id = x.id) :=
          List.filter_cons_of_pos (by simp)
        rw [hcons] at huniq
        have hlen : (xs.filter (fun j => j.id = x.id)).length = 0 := by
          simp only [List.length_cons] at huniq
          omega
        have hnil := List.eq_nil_of_length_eq_zero hlen
        have hnone : ∀ y ∈ xs, ¬ (y.id = x.id) := by
          intro y hy
          have := List.filter_eq_nil_iff.mp hnil y hy
          simpa using this
        simp only [removeFirstRef, if_pos rfl]
        rw [getServerReg, List.find?_eq_none]
        intro y hy
        simpa using hnone y hy
      · have hmem' : i ∈ xs := by
          cases hmem with
          | head => exact absurd rfl hx
          | tail _ h => exact h
        have hxid : ¬ (x.id = i.id) := by
          intro hcontra
          have hcons : (x :: xs).filter (fun j => j.id = i.id)
              = x :: xs.filter (fun j => j.id = i.id) :=
            List.filter_cons_of_pos (by simpa using hcontra)
          rw [hcons] at huniq
          have hiin : i ∈ xs.filter (fun j => j.id = i.id) := by
            simp [List.mem_filter, hmem']
          have hpos := List.length_pos.mpr (List.ne_nil_of_mem hiin)
          simp only [List.length_cons] at huniq
          omega
        have huniq' : (xs.filter (fun j => j.id = i.id)).length ≤ 1 := by
          have hcons : (x :: xs).filter (fun j => j.id = i.id)
              = xs.filter (fun j => j.id = i.id) :=
            List.filter_cons_of_neg (by simpa using hxid)
          rw [hcons] at huniq
          exact huniq
        simp only [removeFirstRef, if_neg hx]
        rw [getServerReg, List.find?_cons_of_neg _ (by simpa using hxid)]
        exact ih hmem' huniq'
  · cases c with
    | none => simp [deleteServerReg]
    | some h => simp [deleteServerReg]

/-- C9 witness: delete of the unique instance with id "s1". -/
theorem c9_witness :
    getServerReg (deleteServerReg [⟨0, "s1"⟩] ⟨0, "s1"⟩ (some 3)).1 "s1" = none ∧
    RtAction.removeDir (BASE_SERVER_PATH ++ "/" ++ "s1")
      ∈ (deleteServerReg [⟨0, "s1"⟩] ⟨0, "s1"⟩ (some 3)).2 :=
  c9_delete_deregisters [⟨0, "s1"⟩] ⟨0, "s1"⟩ (some 3) (by decide) (by decide)

/-! ### Helpers for the username-split equivalence (C6) -/

theorem splitSeg_ne_nil (c : Char) (cs : List Char) : splitSeg c cs ≠ [] := by
  cases cs with
  | nil => simp [splitSeg]
  | cons x xs =>
    simp only [splitSeg]
    by_cases h : x = c
    · simp [h]
    · simp only [if_neg h]
      cases hr : splitSeg c xs with
      | nil => simp
      | cons s tail => simp

/-- When the separator does not occur, JS split returns the whole string. -/
theorem lastSplitChar_none (c : Char) (cs : List Char)
    (h : lastSplitChar c cs = none) : splitSeg c cs = [cs] := by
  induction cs with
  | nil => rfl
  | cons x xs ih =>
    simp only [lastSplitChar] at h
    cases hls : lastSplitChar c xs with
    | some pr => rw [hls] at h; cases h
    | none =>
      rw [hls] at h
      by_cases hx : x = c
      · rw [if_pos hx] at h; cases h
      · have hxs := ih hls
        simp only [splitSeg, if_neg hx, hxs]

/-- Unfolding of joinWith on a cons cell. -/
theorem joinWith_cons (c : Char) (s : List Char) (t : List (List Char)) :
    joinWith c (s :: t) = if t = [] then s else s ++ c :: joinWith c t := by
  cases t with
  | nil => rfl
  | cons a b => rfl

/-- When the separator occurs, JS split has at least two parts, joining
all but the last gives the text left of the LAST separator, and the
last part is the text right of it. -/
theorem lastSplitChar_some (c : Char) (cs : List Char) (l r : List Char)
    (h : lastSplitChar c cs = some (l, r)) :
    2 ≤ (splitSeg c cs).length ∧
    joinWith c (splitSeg c cs).dropLast = l ∧
    (splitSeg c cs).getLastD [] = r := by
  induction cs generalizing l r with
  | nil => cases h
  | cons x xs ih =>
    simp only [lastSplitChar] at h
    cases hls : lastSplitChar c xs with
    | some pr =>
      obtain ⟨l', r'⟩ := pr
      rw [hls] at h
      injection h with h1
      injection h1 with hl hr
      obtain ⟨ihlen, ihjoin, ihlast⟩ := ih l' r' hls
      obtain ⟨p0, ps, hps⟩ : ∃ p0 ps, splitSeg c xs = p0 :: ps := by
        cases hsp : splitSeg c xs with
        | nil => exact absurd hsp (splitSeg_ne_nil c xs)
        | cons a b => exact ⟨a, b, rfl⟩
      have hpslen : ps ≠ [] := by
        intro hnil
        rw [hps, hnil] at ihlen
        simp at ihlen
      obtain ⟨p1, rest, hrest⟩ : ∃ p1 rest, ps = p1 :: rest := by
        cases ps with
        | nil => exact absurd rfl hpslen
        | cons a b => exact ⟨a, b, rfl⟩
      subst hrest
      by_cases hx : x = c
      · have hsp1 : splitSeg c (x :: xs) = [] :: splitSeg c xs := by
          simp [splitSeg, hx]
        rw [hsp1, hps]
        refine ⟨by simp, ?_, ?_⟩
        · rw [List.dropLast_cons_of_ne_nil (by simp)]
          rw [joinWith_cons]
          rw [if_neg (by simp : ¬(p0 :: p1 :: rest).dropLast = [])]
          rw [hps] at ihjoin
          rw [hps] at ihlen
          rw [ihjoin]
          simp [← hl, hx]
        · rw [List.getLastD_cons]
          rw [hps] at ihlast
          rw [← hr]
          cases rest with
          | nil => simpa using ihlast
          | cons q qs => simpa using ihlast
      · have hsp1 : splitSeg c (x :: xs) = (x :: p0) :: p1 :: rest := by
          simp only [splitSeg, if_neg hx, hps]
        rw [hsp1]
        refine ⟨by simp, ?_, ?_⟩
        · rw [List.dropLast_cons_of_ne_nil (by simp)]
          rw [joinWith_cons]
          rw [hps] at ihjoin
          rw [List.dropLast_cons_of_ne_nil (by simp)] at ihjoin
          rw [joinWith_cons] at ihjoin
          rw [← hl]
          by_cases hdrop : (p1 :: rest).dropLast = []
          · rw [if_pos hdrop]
            rw [if_pos hdrop] at ihjoin
            rw [ihjoin]
          · rw [if_neg hdrop]
            rw [if_neg hdrop] at ihjoin
            rw [← ihjoin]
            simp
        · rw [List.getLastD_cons]
          rw [hps] at ihlast
          rw [List.getLastD_cons] at ihlast
          rw [← hr]
          cases rest with
          | nil => simpa using ihlast
          | cons q qs => simpa using ihlast
    | none =>
      rw [hls] at h
      by_cases hx : x = c
      · rw [if_pos hx] at h
        injection h with h1
        injection h1 with hl hr
        have hxs := lastSplitChar_none c xs hls
        have hsp1 : splitSeg c (x :: xs) = [] :: splitSeg c xs := by
          simp [splitSeg, hx]
        rw [hsp1, hxs]
        refine ⟨by simp, by simp [← hl, joinWith], by simp [← hr]⟩
      · rw [if_neg hx] at h
        cases h

/-- The array-based username split of the SFTP handler equals the
last-underscore split with the empty-id fallback to 'a'. -/
theorem parseSftpUser_eq_amended (raw : String) :
    parseSftpUser raw = amendedParse raw := by
  unfold parseSftpUser amendedParse
  cases hls : lastSplitChar '_' raw.data with
  | none =>
    have h := lastSplitChar_none '_' raw.data hls
    simp [h]
  | some pr =>
    obtain ⟨l, r⟩ := pr
    obtain ⟨hlen, hjoin, hlast⟩ := lastSplitChar_some '_' raw.data l r hls
    have hnotlt : ¬ (splitSeg '_' raw.data).length < 2 := by omega
    simp only [if_neg hnotlt, hjoin, hlast]

/-- C6 counterexample: claim semantics vs code at username "user_" with
registry ["b"]. By the claim, the server id is the (empty) right side
of the last underscore, whose unique prefix-match is "b", so
authentication resolves; the code replaces the empty right side by the
literal 'a' (parts.pop() || 'a') and finds no match, rejecting. -/
theorem c6_counterexample :
    sftpAuthResolve [⟨0, "b"⟩] "user_" = none ∧
    claimAuthResolve [⟨0, "b"⟩] "user_" = some ("user", ⟨0, "b"⟩) := by
  refine ⟨by decide, by decide⟩

/-- C6 amended: for every registry and username, the SFTP
authentication resolution splits the username at the last underscore
(left side the user, right side the server id, an EMPTY right side
replaced by the literal 'a'), then looks the id up first by exact
match, then by unique-prefix match; no or ambiguous matches reject. -/
theorem c6_auth_resolution (reg : List Inst) (raw : String) :
    sftpAuthResolve reg raw = amendedAuthResolve reg raw := by
  unfold sftpAuthResolve amendedAuthResolve
  rw [parseSftpUser_eq_amended]

/-! ### Helpers for the unarchive flatten heuristic (C5) -/

theorem mk_data (s : String) : String.mk s.data = s := by
  cases s
  rfl

theorem str_ne_empty_of_data {s : String} (h : s.data ≠ []) : s ≠ "" := by
  intro hc
  exact h (by rw [hc])

theorem cleanSeg_spec (T : String) (h : cleanSegB T = true) :
    T.data ≠ [] ∧ T.data ≠ ['.'] ∧ T.data ≠ ['.', '.'] ∧
    ∀ c ∈ T.data, c ≠ '/' ∧ c ≠ '\\' ∧ c ≠ ':' := by
  simp only [cleanSegB, Bool.and_eq_true, decide_eq_true_eq, List.all_eq_true,
    ne_eq] at h
  obtain ⟨⟨⟨h1, h2⟩, h3⟩, h4⟩ := h
  refine ⟨?_, ?_, ?_, ?_⟩
  · intro hc
    exact h1 (String.ext hc)
  · intro hc
    exact h2 (String.ext hc)
  · intro hc
    exact h3 (String.ext hc)
  · intro c hc
    have := h4 c hc
    simp only [Bool.and_eq_true, decide_eq_true_eq] at this
    exact ⟨this.1.1, this.1.2, this.2⟩

/-- If the separator does not occur, splitSeg keeps the list whole. -/
theorem splitSeg_of_not_mem (c : Char) (cs : List Char) (h : c ∉ cs) :
    splitSeg c cs = [cs] := by
  induction cs with
  | nil => rfl
  | cons x xs ih =>
    have hx : x ≠ c := fun hc => h (hc ▸ List.mem_cons_self x xs)
    have hxs : c ∉ xs := fun hc => h (List.mem_cons_of_mem x hc)
    simp only [splitSeg, if_neg hx, ih hxs]

/-- Splitting xs ++ c :: ys when c does not occur in xs peels xs off. -/
theorem splitSeg_append_sep (c : Char) (xs ys : List Char) (h : c ∉ xs) :
    splitSeg c (xs ++ c :: ys) = xs :: splitSeg c ys := by
  induction xs with
  | nil => simp [splitSeg]
  | cons x xt ih =>
    have hx : x ≠ c := fun hc => h (hc ▸ List.mem_cons_self x xt)
    have hxt : c ∉ xt := fun hc => h (List.mem_cons_of_mem x hc)
    have hr := ih hxt
    simp only [List.cons_append, splitSeg, if_neg hx]
    have hr2 : splitSeg c (xt.append (c :: ys)) = xt :: splitSeg c ys := hr
    rw [hr2]

/-- joinWith of a cons with a non-empty head is non-empty. -/
theorem joinWith_ne_nil (c : Char) (q : List Char) (qs : List (List Char))
    (hq : q ≠ []) : joinWith c (q :: qs) ≠ [] := by
  rw [joinWith_cons]
  by_cases h : qs = []
  · rw [if_pos h]
    exact hq
  · rw [if_neg h]
    intro hc
    cases q with
    | nil => exact hq rfl
    | cons a b => cases hc

/-- Elimination for strStarts: the data splits as prefix ++ tail. -/
theorem strStarts_elim {w p : String} (h : strStarts w p = true) :
    ∃ t, w.data = p.data ++ t := by
  simp only [strStarts, List.isPrefixOf_iff_prefix] at h
  obtain ⟨t, ht⟩ := h
  exact ⟨t, ht.symm⟩

/-- Introduction for strStarts from a data decomposition. -/
theorem strStarts_intro (w p : String) (t : List Char)
    (h : w.data = p.data ++ t) : strStarts w p = true := by
  simp only [strStarts, List.isPrefixOf_iff_prefix, h]
  exact ⟨t, rfl⟩

/-- fixSlash only yields the empty string on the empty string. -/
theorem fixSlash_eq_empty {s : String} (h : fixSlash s = "") : s = "" := by
  have hd : (fixSlash s).data = [] := by rw [h]
  simp only [fixSlash] at hd
  cases hs : s.data with
  | nil => exact String.ext hs
  | cons a t => rw [hs] at hd; cases hd

/-- Under a clean top segment, an entry that (after slash-fixing) is the
segment or lies below it cannot trigger the drive/leading-separator
strip. -/
theorem stripDrive_id (T raw : String) (rest : List Char)
    (hT : cleanSegB T = true)
    (hmap : raw.data.map bsFix = T.data ++ rest)
    (hrest : rest = [] ∨ ∃ tl, rest = '/' :: tl) :
    stripDriveSlashes raw.data = raw.data := by
  obtain ⟨hTne, -, -, hchars⟩ := cleanSeg_spec T hT
  obtain ⟨t0, ts, hTd⟩ : ∃ t0 ts, T.data = t0 :: ts := by
    cases hT0 : T.data with
    | nil => exact absurd hT0 hTne
    | cons a b => exact ⟨a, b, rfl⟩
  have ht0 := hchars t0 (by rw [hTd]; exact List.mem_cons_self _ _)
  cases hcs : raw.data with
  | nil => rfl
  | cons a cs2 =>
    rw [hcs, hTd] at hmap
    simp only [List.map_cons, List.cons_append, List.cons.injEq] at hmap
    obtain ⟨hfa, hmap2⟩ := hmap
    have hna : isSepChar a = false := by
      simp only [isSepChar, Bool.or_eq_false_iff, decide_eq_false_iff_not]
      constructor
      · intro hc
        rw [hc] at hfa
        exact ht0.1 (by simpa [bsFix] using hfa.symm)
      · intro hc
        rw [hc] at hfa
        exact ht0.1 (by simpa [bsFix] using hfa.symm)
    cases hcs2 : cs2 with
    | nil => simp [stripDriveSlashes, hna]
    | cons b cs3 =>
      rw [hcs2] at hmap2
      have hnb : ¬ (b = ':') := by
        intro hb
        cases hts : ts with
        | cons tb ts2 =>
          rw [hts] at hmap2
          simp only [List.map_cons, List.cons_append, List.cons.injEq] at hmap2
          have htb := hchars tb (by rw [hTd, hts]; simp)
          rw [hb] at hmap2
          exact htb.2.2 (by simpa [bsFix] using hmap2.1.symm)
        | nil =>
          rw [hts] at hmap2
          simp only [List.nil_append, List.map_cons] at hmap2
          rcases hrest with hr | ⟨tl, hr⟩
          · rw [hr] at hmap2
            cases hmap2
          · rw [hr] at hmap2
            simp only [List.cons.injEq] at hmap2
            rw [hb] at hmap2
            have : bsFix ':' = ':' := rfl
            rw [this] at hmap2
            cases hmap2.1
      cases hcs3 : cs3 with
      | nil => simp [stripDriveSlashes, hna]
      | cons c3 cs4 =>
        simp [stripDriveSlashes, hna, hnb]

/-- Sanitizing an entry that slash-fixes to exactly the clean top
segment yields that segment. -/
theorem sanitize_top_exact (T raw : String) (hT : cleanSegB T = true)
    (hmap : raw.data.map bsFix = T.data) :
    sanitizeArchiveEntry raw = .ok T := by
  obtain ⟨hTne, hTdot, hTdd, hchars⟩ := cleanSeg_spec T hT
  have hstrip := stripDrive_id T raw [] hT (by simpa using hmap) (Or.inl rfl)
  have hsepT : '/' ∉ T.data := fun hc => (hchars _ hc).1 rfl
  simp only [sanitizeArchiveEntry, hstrip, hmap]
  rw [splitSeg_of_not_mem _ _ hsepT]
  have hpred : (decide (T.data ≠ []) && decide (T.data ≠ ['.'])) = true := by
    simp [hTne, hTdot]
  rw [List.filter_cons_of_pos (by simpa using hpred), List.filter_nil]
  rw [if_neg (by simp [hTdd])]
  exact congrArg Except.ok (mk_data T)

/-- Sanitizing an entry that slash-fixes to top ++ '/' ++ tail yields an
error, the bare top, or top/rest with rest non-empty. -/
theorem sanitize_top_cases (T raw : String) (tail : List Char)
    (hT : cleanSegB T = true)
    (hmap : raw.data.map bsFix = T.data ++ '/' :: tail) :
    sanitizeArchiveEntry raw = .error "Entrada de arquivo inválida em archive" ∨
    sanitizeArchiveEntry raw = .ok T ∨
    ∃ restS : String, restS ≠ "" ∧
      sanitizeArchiveEntry raw = .ok (T ++ "/" ++ restS) := by
  obtain ⟨hTne, hTdot, hTdd, hchars⟩ := cleanSeg_spec T hT
  have hstrip := stripDrive_id T raw ('/' :: tail) hT hmap (Or.inr ⟨tail, rfl⟩)
  have hsepT : '/' ∉ T.data := fun hc => (hchars _ hc).1 rfl
  simp only [sanitizeArchiveEntry, hstrip, hmap]
  rw [splitSeg_append_sep _ _ _ hsepT]
  have hpred : (decide (T.data ≠ []) && decide (T.data ≠ ['.'])) = true := by
    simp [hTne, hTdot]
  rw [List.filter_cons_of_pos (by simpa using hpred)]
  by_cases hdd :
      ((splitSeg '/' tail).filter (fun seg => seg ≠ [] && seg ≠ ['.'])).any
        (fun seg => seg = ['.', '.']) = true
  · left
    rw [if_pos (by rw [List.any_cons, hdd, Bool.or_true])]
  · rw [Bool.not_eq_true] at hdd
    cases hps : (splitSeg '/' tail).filter (fun seg => seg ≠ [] && seg ≠ ['.']) with
    | nil =>
      right; left
      rw [if_neg (by simp [hTdd])]
      exact congrArg Except.ok (mk_data T)
    | cons q qs =>
      right; right
      have hq : q ≠ [] := by
        have hmem : q ∈ (splitSeg '/' tail).filter
            (fun seg => seg ≠ [] && seg ≠ ['.']) := by
          rw [hps]; exact List.mem_cons_self _ _
        have := List.of_mem_filter hmem
        simp only [Bool.and_eq_true, decide_eq_true_eq, ne_eq] at this
        exact this.1
      rw [hps] at hdd
      refine ⟨String.mk (joinWith '/' (q :: qs)), ?_, ?_⟩
      · exact str_ne_empty_of_data (by simpa using joinWith_ne_nil '/' q qs hq)
      · rw [if_neg (by rw [List.any_cons, hdd]; simp [hTdd])]
        refine congrArg Except.ok (String.ext ?_)
        show joinWith '/' (T.data :: q :: qs)
          = (T ++ "/" ++ String.mk (joinWith '/' (q :: qs))).data
        rw [joinWith_cons, if_neg (by simp)]
        simp

/-- Under flattening, an extracted name originates from a sanitized
entry equal to top/name: exactly one leading top component was
stripped. -/
theorem entryFinal_flat_origin (destAbs T raw nm : String)
    (hT : cleanSegB T = true)
    (hshape : raw = "" ∨ fixSlash raw = T ∨
      strStarts (fixSlash raw) (T ++ "/") = true)
    (hout : entryFinal destAbs true T raw = some nm) :
    sanitizeArchiveEntry raw = .ok (T ++ "/" ++ nm) ∧ nm ≠ "" := by
  obtain ⟨hTne, hTdot, hTdd, hchars⟩ := cleanSeg_spec T hT
  have hTne' : T ≠ "" := str_ne_empty_of_data hTne
  rcases hshape with hra | hsh | hsh
  · subst hra
    have hnone : entryFinal destAbs true T "" = none := rfl
    rw [hnone] at hout
    cases hout
  · have hmap : raw.data.map bsFix = T.data := by
      have := congrArg String.data hsh
      simpa [fixSlash] using this
    have hsan := sanitize_top_exact T raw hT hmap
    simp [entryFinal, hsan, hTne'] at hout
  · obtain ⟨t, ht⟩ := strStarts_elim hsh
    have hmap : raw.data.map bsFix = T.data ++ '/' :: t := by
      have hfd : (fixSlash raw).data = raw.data.map bsFix := rfl
      rw [hfd] at ht
      simpa using ht
    rcases sanitize_top_cases T raw t hT hmap with herr | hok | ⟨restS, hrne, hok⟩
    · simp [entryFinal, herr] at hout
    · simp [entryFinal, hok, hTne'] at hout
    · have hne0 : T ++ "/" ++ restS ≠ "" := by
        apply str_ne_empty_of_data
        simp
      have hneT : ¬ (T ++ "/" ++ restS = T) := by
        intro hc
        have := congrArg (fun s => s.data.length) hc
        simp at this
      have hstarts : strStarts (T ++ "/" ++ restS) (T ++ "/") = true := by
        apply strStarts_intro _ _ restS.data
        simp
      have hdrop : strDropChars (T ++ "/" ++ restS) (T.length + 1) = restS := by
        simp only [strDropChars]
        have hsplit : (T ++ "/" ++ restS).data = (T.data ++ ['/']) ++ restS.data := by
          simp
        rw [hsplit]
        rw [List.drop_left' (by rw [List.length_append]; rfl)]
      simp only [entryFinal, hok] at hout
      rw [if_neg hne0] at hout
      simp only [if_true, if_neg hneT, if_pos hstarts, hdrop] at hout
      rw [if_neg hrne] at hout
      by_cases hg : strStarts (pathJoin destAbs restS) destAbs = true
      · rw [if_pos hg] at hout
        injection hout with hnm
        subst hnm
        exact ⟨hok, hrne⟩
      · rw [if_neg hg] at hout
        cases hout

/-- Without flattening, an extracted name is the sanitized entry
verbatim. -/
theorem entryFinal_verbatim (destAbs root raw nm : String)
    (hout : entryFinal destAbs false root raw = some nm) :
    sanitizeArchiveEntry raw = .ok nm ∧ nm ≠ "" := by
  cases hsan : sanitizeArchiveEntry raw with
  | error e =>
    simp [entryFinal, hsan] at hout
  | ok n0 =>
    simp only [entryFinal, hsan] at hout
    by_cases h0 : n0 = ""
    · rw [if_pos h0] at hout
      cases hout
    · rw [if_neg h0] at hout
      simp only [Bool.false_eq_true, if_false] at hout
      rw [if_neg h0] at hout
      by_cases hg : strStarts (pathJoin destAbs n0) destAbs = true
      · rw [if_pos hg] at hout
        injection hout with hnm
        subst hnm
        exact ⟨rfl, h0⟩
      · rw [if_neg hg] at hout
        cases hout

/-- The first top-level component of an entry that is the clean top T
or lies below it is T itself. -/
theorem firstTopOf_of_top (T n0 : String) (hT : cleanSegB T = true)
    (h : n0 = T ∨ strStarts n0 (T ++ "/") = true) : firstTopOf n0 = T := by
  obtain ⟨-, -, -, hchars⟩ := cleanSeg_spec T hT
  have hsepT : '/' ∉ T.data := fun hc => (hchars _ hc).1 rfl
  rcases h with h | h
  · subst h
    simp only [firstTopOf]
    rw [splitSeg_of_not_mem _ _ hsepT]
    simp only [List.headD_cons]
  · obtain ⟨t, ht⟩ := strStarts_elim h
    have hn0 : n0.data = T.data ++ '/' :: t := by simpa using ht
    simp only [firstTopOf, hn0]
    rw [splitSeg_append_sep _ _ _ hsepT]
    simp only [List.headD_cons]

/-- Evaluation of the flatten check once the filtered name list is
known to be a cons. -/
theorem flattenCheck_eval (base n0 : String) (rest : List String)
    (raws : List String)
    (hnames : (raws.map fixSlash).filter (fun n => n ≠ "") = n0 :: rest) :
    flattenCheck base raws =
      if firstTopOf n0 ≠ "" &&
          (n0 :: rest).all (fun n => n = firstTopOf n0 ||
            strStarts n (firstTopOf n0 ++ "/")) &&
          firstTopOf n0 = base
      then (true, firstTopOf n0) else (false, "") := by
  simp only [flattenCheck, hnames]

/-- Evaluation of the flatten check when every name filtered out. -/
theorem flattenCheck_eval_nil (base : String) (raws : List String)
    (hnames : (raws.map fixSlash).filter (fun n => n ≠ "") = []) :
    flattenCheck base raws = (false, "") := by
  simp only [flattenCheck, hnames]

/-- When the claim's single-top condition holds for the clean T equal
to the derived base, the code's flatten check fires with root T. -/
theorem flattenCheck_of_cond (T : String) (raws : List String)
    (hT : cleanSegB T = true) (hcond : flattenCondB T raws = true) :
    flattenCheck T raws = (true, T) := by
  obtain ⟨hTne, -, -, -⟩ := cleanSeg_spec T hT
  have hTne' : T ≠ "" := str_ne_empty_of_data hTne
  simp only [flattenCondB] at hcond
  cases hnames : (raws.map fixSlash).filter (fun n => n ≠ "") with
  | nil =>
    rw [hnames] at hcond
    rw [show (decide (([] : List String) ≠ [])) = false from rfl] at hcond
    rw [Bool.false_and] at hcond
    cases hcond
  | cons n0 rest =>
    rw [hnames] at hcond
    rw [Bool.and_eq_true] at hcond
    have hall := hcond.2
    have hn0 : n0 = T ∨ strStarts n0 (T ++ "/") = true := by
      have := List.all_eq_true.mp hall n0 (List.mem_cons_self _ _)
      simpa using this
    have hft : firstTopOf n0 = T := firstTopOf_of_top T n0 hT hn0
    rw [flattenCheck_eval T n0 rest raws hnames, hft]
    rw [if_pos (by simp [hTne', hall])]

/-- When the condition fails for T (the derived base), the code's
flatten check does not fire. -/
theorem flattenCheck_not_cond (T : String) (raws : List String)
    (hcond : flattenCondB T raws = false) :
    flattenCheck T raws = (false, "") := by
  simp only [flattenCondB] at hcond
  cases hnames : (raws.map fixSlash).filter (fun n => n ≠ "") with
  | nil => exact flattenCheck_eval_nil T raws hnames
  | cons n0 rest =>
    rw [hnames] at hcond
    have hall : ((n0 :: rest).all
        (fun n => n = T || strStarts n (T ++ "/"))) = false := by
      simpa using hcond
    rw [flattenCheck_eval T n0 rest raws hnames]
    by_cases hft : firstTopOf n0 = T
    · rw [hft]
      rw [if_neg (by simp [hall])]
    · rw [if_neg (by simp [hft])]

/-- C5 counterexample: archive "pack.zip" with entries "pack/" and
"pack/pack/a.txt" and caller-supplied destination "x" satisfies the
flatten condition (single top-level "pack" = derived base), so
flattened = true — but the extracted path "x/pack/a.txt" still contains
"pack" as a component: only the single LEADING top component is
stripped, nested occurrences survive, refuting the claim's "no
extracted path contains T/ as a component". -/
theorem c5_counterexample :
    unarchiveZipModel "s1" (some "x") "pack.zip" ["pack/", "pack/pack/a.txt"]
      = .ok ⟨true, ["pack/a.txt"], ["x/pack/a.txt"]⟩ ∧
    "pack" ∈ pathComponents "x/pack/a.txt" := by
  refine ⟨rfl, by decide⟩

/-- C5 amended: with a caller-supplied destination, when every entry of
the archive is the single clean top-level directory T or lies within
T/, and T equals the archive's derived base name, the response reports
flattened = true and every extracted name originates from a sanitized
entry equal to T/name — exactly one leading T component is stripped
(nested T components may survive); in every other case flattened =
false and entry paths are preserved verbatim modulo entry
sanitization. -/
theorem c5_flatten_behavior (sid dest arch relA T : String)
    (raws : List String) (o : UnarchOut)
    (hrun : unarchiveZipModel sid (some dest) arch raws = .ok o)
    (hdest : dest ≠ "")
    (hrel : sanitizeRelative (some arch) = .ok relA)
    (hT : T = deriveArchiveBase (basenameStr relA))
    (hclean : cleanSegB T = true) :
    (flattenCondB T raws = true →
      o.flattened = true ∧
      ∀ nm ∈ o.names, ∃ raw ∈ raws,
        sanitizeArchiveEntry raw = .ok (T ++ "/" ++ nm)) ∧
    (flattenCondB T raws = false →
      o.flattened = false ∧
      ∀ nm ∈ o.names, ∃ raw ∈ raws, sanitizeArchiveEntry raw = .ok nm) := by
  have hud : jsTruthy (some dest) = true := by simp [jsTruthy, hdest]
  simp only [unarchiveZipModel, hrel] at hrun
  cases hres : resolveServerPath sid relA with
  | error e =>
    simp only [hres] at hrun
    cases hrun
  | ok absA =>
    simp only [hres] at hrun
    cases hzip : strEnds (lowerStr relA) ".zip" with
    | false =>
      simp only [hzip, Bool.not_false, if_true] at hrun
      cases hrun
    | true =>
      simp only [hzip, Bool.not_true, Bool.false_eq_true, if_false] at hrun
      simp only [hud, if_true] at hrun
      cases hds : sanitizeRelative (some dest) with
      | error e =>
        simp only [hds] at hrun
        cases hrun
      | ok destRel =>
        simp only [hds] at hrun
        cases hda : resolveServerPath sid destRel with
        | error e =>
          simp only [hda] at hrun
          cases hrun
        | ok destAbs =>
          simp only [hda] at hrun
          rw [← hT] at hrun
          injection hrun with ho
          constructor
          · intro hcond
            have hfc := flattenCheck_of_cond T raws hclean hcond
            rw [hfc] at ho
            subst ho
            refine ⟨rfl, ?_⟩
            intro nm hmem
            simp only [UnarchOut.names] at hmem
            obtain ⟨raw, hraw, hf⟩ := List.mem_filterMap.mp hmem
            refine ⟨raw, hraw, ?_⟩
            have hshape : raw = "" ∨ fixSlash raw = T ∨
                strStarts (fixSlash raw) (T ++ "/") = true := by
              by_cases hfe : fixSlash raw = ""
              · exact Or.inl (fixSlash_eq_empty hfe)
              · right
                simp only [flattenCondB, Bool.and_eq_true,
                  List.all_eq_true] at hcond
                have hmemf : fixSlash raw ∈
                    (raws.map fixSlash).filter (fun n => n ≠ "") := by
                  refine List.mem_filter.mpr ⟨List.mem_map_of_mem _ hraw, ?_⟩
                  simp [hfe]
                have := hcond.2 (fixSlash raw) hmemf
                simpa using this
            exact (entryFinal_flat_origin destAbs T raw nm hclean hshape hf).1
          · intro hcond
            have hfc := flattenCheck_not_cond T raws hcond
            rw [hfc] at ho
            subst ho
            refine ⟨rfl, ?_⟩
            intro nm hmem
            simp only [UnarchOut.names] at hmem
            obtain ⟨raw, hraw, hf⟩ := List.mem_filterMap.mp hmem
            exact ⟨raw, hraw, (entryFinal_verbatim destAbs "" raw nm hf).1⟩

/-- C5 witness: the amended flatten behavior at the spec's seed test
(pack.zip with pack/a.txt and pack/sub/b.txt, destination "x"). -/
theorem c5_witness :
    flattenCondB "pack" ["pack/a.txt", "pack/sub/b.txt"] = true ∧
    (UnarchOut.mk true ["a.txt", "sub/b.txt"] ["x/a.txt", "x/sub/b.txt"]).flattened
      = true ∧
    ∀ nm ∈ (UnarchOut.mk true ["a.txt", "sub/b.txt"]
        ["x/a.txt", "x/sub/b.txt"]).names,
      ∃ raw ∈ ["pack/a.txt", "pack/sub/b.txt"],
        sanitizeArchiveEntry raw = .ok ("pack" ++ "/" ++ nm) := by
  have h := (c5_flatten_behavior "s1" "x" "pack.zip" "pack.zip" "pack"
    ["pack/a.txt", "pack/sub/b.txt"]
    ⟨true, ["a.txt", "sub/b.txt"], ["x/a.txt", "x/sub/b.txt"]⟩
    rfl (by decide) rfl rfl (by decide)).1 (by decide)
  exact ⟨by decide, h.1, h.2⟩

end Hightd
